import Mathlib

/-!
Shallow embedding of the embedding-cache, similarity-search, AI-gateway and chat
subsystems of the ai-second-brain Obsidian plugin (src/main.ts, with the legacy
VectorStore variant from src/unnamed/part_002).

Modelling conventions:
* Numeric vector coordinates are modelled exactly over an arbitrary linearly ordered
  commutative ring R (instantiated at ℤ in concrete examples); IEEE-754 rounding is out
  of scope, but the structural effects of JavaScript division by zero (NaN) and of
  out-of-range indexing are modelled explicitly.
* Cosine similarity dot/(sqrt(sa)*sqrt(sb)) is represented exactly, without computing
  square roots, as the pair (dot, sa*sb), i.e. the value dot / sqrt(sa*sb); the
  comparison used by the sort is implemented on this representation and proved to agree
  with the real-number order (simLe_val_iff).  The value is NaN exactly when the
  denominator is zero: in exact arithmetic a zero magnitude forces a zero dot product,
  so the JS result there is 0/0 = NaN, and a length mismatch with the query longer than
  the candidate makes the dot product itself NaN (undefined index).
* External I/O (the provider HTTP transport, vault reads) is passed in as explicit
  oracle functions; a JavaScript exception is an `Except.error`.
-/

/-- Result of the JS expression `dotProduct / (magnitudeA * magnitudeB)` from
`cosineSimilarity` (src/main.ts lines 744-749), represented exactly: `val d s` stands
for the real number d / sqrt(s), and `nan` for IEEE NaN. -/
inductive Sim (R : Type) where
  | nan : Sim R
  | val (num : R) (denSq : R) : Sim R
  deriving DecidableEq, Repr

/-- Models `v.reduce((sum, val) => sum + val * val, 0)` — the squared magnitude. -/
def sumSq {R : Type} [LinearOrderedCommRing R] (v : List R) : R :=
  (v.map (fun x => x * x)).sum

/-- Models `a.reduce((sum, val, i) => sum + val * b[i], 0)` — the iteration runs over the
indices of `a`; when `a` is longer than `b` the access `b[i]` is `undefined` and the
JS sum is NaN, modelled as `none`. -/
def dotProduct {R : Type} [LinearOrderedCommRing R] (a b : List R) : Option R :=
  if a.length ≤ b.length then some ((List.zipWith (fun x y => x * y) a b).sum) else none

/-- Models `cosineSimilarity` (src/main.ts lines 744-749): `dot / (sqrt(sumSq a) * sqrt(sumSq b))`,
represented as `Sim.val dot (sumSq a * sumSq b)`; the result is NaN when the denominator
is zero (then the dot product is zero too, giving 0/0) or when the dot product itself
is NaN. -/
def cosineSimilarity {R : Type} [LinearOrderedCommRing R] (a b : List R) : Sim R :=
  match dotProduct a b with
  | none => .nan
  | some d => if sumSq a * sumSq b = 0 then .nan else .val d (sumSq a * sumSq b)

/-- Decidable comparison `x ≤ y` on represented similarity values, by sign analysis and
cross-multiplied squares (valid when the stored denominators are positive, which holds
for every value `cosineSimilarity` produces).  The `nan` rows are arbitrary: ECMAScript
leaves the sort order unspecified for the inconsistent comparator NaN produces, and all
order theorems below assume NaN-free inputs. -/
def simLe {R : Type} [LinearOrderedCommRing R] : Sim R → Sim R → Bool
  | .nan, _ => true
  | .val _ _, .nan => true
  | .val d1 p1, .val d2 p2 =>
    if d1 < 0 then
      if d2 < 0 then decide (d2 * d2 * p1 ≤ d1 * d1 * p2)
      else true
    else
      if d2 < 0 then false
      else decide (d1 * d1 * p2 ≤ d2 * d2 * p1)

/-- A similarity value is well-formed when it is an actual number (not NaN) with a
positive denominator square. -/
def Sim.Wf {R : Type} [LinearOrderedCommRing R] : Sim R → Prop
  | .nan => False
  | .val _ p => 0 < p

instance {R : Type} [LinearOrderedCommRing R] (s : Sim R) : Decidable s.Wf := by
  cases s with
  | nan => exact isFalse (fun h => h)
  | val d p => exact inferInstanceAs (Decidable (0 < p))

/-- Models `NoteEmbedding` (src/main.ts lines 18-22). -/
structure NoteEmbedding (R : Type) where
  path : String
  embedding : List R
  lastModified : Int
  deriving DecidableEq, Repr

/-- One element of the `similarities` list built by `findRelatedNotes`
(src/main.ts lines 344-351). -/
structure SimilarityEntry (R : Type) where
  path : String
  similarity : Sim R
  deriving DecidableEq, Repr

/-- Insertion step of a stable descending sort: `e` is placed in front of the first
element it is greater than or equal to.  With a consistent comparator this computes the
same list as the (stable, ES2019) `Array.prototype.sort((a, b) => b.similarity -
a.similarity)` of the source. -/
def insertBySim {R : Type} [LinearOrderedCommRing R] (e : SimilarityEntry R) :
    List (SimilarityEntry R) → List (SimilarityEntry R)
  | [] => [e]
  | y :: ys => if simLe y.similarity e.similarity then e :: y :: ys else y :: insertBySim e ys

/-- Stable sort of similarity entries, descending by similarity; models
`.sort((a, b) => b.similarity - a.similarity)` in src/main.ts line 350 and
src/unnamed/part_002 line 35. -/
def sortBySimilarityDesc {R : Type} [LinearOrderedCommRing R] :
    List (SimilarityEntry R) → List (SimilarityEntry R)
  | [] => []
  | x :: xs => insertBySim x (sortBySimilarityDesc xs)

/-- The `.filter(...).map(...)` stage of `findRelatedNotes` (src/main.ts lines 344-349):
every cached entry other than the active note, paired with its cosine similarity to the
current embedding.  No similarity-threshold or zero-vector filtering appears here. -/
def relatedCandidates {R : Type} [LinearOrderedCommRing R] (cache : List (NoteEmbedding R))
    (activePath : String) (currentEmbedding : List R) : List (SimilarityEntry R) :=
  (cache.filter (fun e => e.path != activePath)).map
    (fun e => ⟨e.path, cosineSimilarity currentEmbedding e.embedding⟩)

/-- The `similarities` value of `AIChatView.findRelatedNotes` (src/main.ts lines
344-351): filter out the active note, map to cosine similarities, sort descending,
`slice(0, 5)`. -/
def findRelatedNotes {R : Type} [LinearOrderedCommRing R] (cache : List (NoteEmbedding R))
    (activePath : String) (currentEmbedding : List R) : List (SimilarityEntry R) :=
  (sortBySimilarityDesc (relatedCandidates cache activePath currentEmbedding)).take 5

/-- Models `NoteEmbedding` of the legacy store (src/unnamed/part_002 lines 16-19): no
`lastModified` field. -/
structure VSEntry (R : Type) where
  path : String
  embedding : List R
  deriving DecidableEq, Repr

namespace VectorStore

/-- Models `VectorStore.search` (src/unnamed/part_002 lines 29-37): map all stored embeddings
to similarities, sort descending, `slice(0, k)`.  Note it has no self-exclusion and no
similarity threshold. -/
def search {R : Type} [LinearOrderedCommRing R] (embeddings : List (VSEntry R))
    (queryEmbedding : List R) (k : Nat) : List (SimilarityEntry R) :=
  (sortBySimilarityDesc (embeddings.map
    (fun note => ⟨note.path, cosineSimilarity queryEmbedding note.embedding⟩))).take k

end VectorStore

/-- The cache mutation of `updateNoteEmbedding` (src/main.ts lines 724-739):
`findIndex(e => e.path === file.path)`, then replace in place if found (`!== -1`,
modelled as index < length since `List.findIdx` returns the length when no element
matches) else push. -/
def upsert {R : Type} (cache : List (NoteEmbedding R)) (p : String) (v : List R)
    (t : Int) : List (NoteEmbedding R) :=
  let i := cache.findIdx (fun e => e.path == p)
  if i < cache.length then cache.set i ⟨p, v, t⟩ else cache ++ [⟨p, v, t⟩]

/-- Cache lookup, `embeddings.find(e => e.path === path)` (src/main.ts lines 333-334). -/
def lookupNote {R : Type} (cache : List (NoteEmbedding R)) (p : String) :
    Option (NoteEmbedding R) :=
  cache.find? (fun e => e.path == p)

/-- Recursive characterisation of `upsert`, used for proofs: replace the first entry
whose path matches, or append at the end. -/
def upsertRec {R : Type} (p : String) (v : List R) (t : Int) :
    List (NoteEmbedding R) → List (NoteEmbedding R)
  | [] => [⟨p, v, t⟩]
  | x :: xs => if x.path == p then ⟨p, v, t⟩ :: xs else x :: upsertRec p v t xs

/-- Chat message roles (src/main.ts lines 38-41). -/
inductive Role where
  | user
  | assistant
  | system
  deriving DecidableEq, Repr

/-- Models `ChatMessage` (src/main.ts lines 38-41). -/
structure ChatMessage where
  role : Role
  content : String
  deriving DecidableEq, Repr

/-- The prefix of the transient note-context system message
(src/main.ts lines 229-232 and 242-245). -/
def noteContentMarker : String := "Current note content:"

def lineFeed : String := "\n"

/-- The history cleanup of `handleUserInput` (src/main.ts lines 241-245):
`chatHistory.filter(msg => msg.role !== "system" || !msg.content.startsWith("Current note content:"))`. -/
def stripNoteContext (history : List ChatMessage) : List ChatMessage :=
  history.filter
    (fun m => (m.role != Role.system) || !(m.content.startsWith noteContentMarker))

/-- Models `AIChatView.handleUserInput` (src/main.ts lines 214-251), as a function from the
permanent `chatHistory` to the `chatHistory` left after the call returns.
`activeNote` is the content of the active note (`none` models no open note);
`ai` is `callAIWithHistory`, whose thrown exceptions are `Except.error` (the JS
`catch` block at lines 247-250 only logs and posts a UI bubble, so the history that
exists at the moment of the throw is kept as is). -/
def handleUserInput (history : List ChatMessage) (input : String)
    (activeNote : Option String) (ai : List ChatMessage → Except Unit String) :
    List ChatMessage :=
  let h1 := history ++ [⟨Role.user, input⟩]
  match activeNote with
  | none => h1
  | some content =>
    let h2 := h1 ++ [⟨Role.system, noteContentMarker ++ lineFeed ++ content⟩]
    match ai h2 with
    | .error _ => h2
    | .ok response => stripNoteContext (h2 ++ [⟨Role.assistant, response⟩])

/-- Errors the gateway code can actually raise: the `default` branch of the provider
switch, and a provider transport / response-shape failure.  The source defines no
`EmptyInputError` and no `ConfigurationError`. -/
inductive AIError where
  | invalidProvider
  | providerFailure
  deriving DecidableEq, Repr

def providerOllama : String := "ollama"

def providerOpenai : String := "openai"

/-- Models `AIPoweredSecondBrain.getEmbedding` (src/main.ts lines 678-687): a bare switch on
`settings.aiProvider`; the chosen provider call receives the text unchanged — there is
no blank-input validation anywhere on this path.  `ollamaEmbed` and `openaiEmbed` are
the provider transports (lines 689-718), whose network/parse failures are
`Except.error`. -/
def getEmbedding {R : Type} (aiProvider : String)
    (ollamaEmbed openaiEmbed : String → Except AIError (List R)) (text : String) :
    Except AIError (List R) :=
  if aiProvider == providerOllama then ollamaEmbed text
  else if aiProvider == providerOpenai then openaiEmbed text
  else .error .invalidProvider

def missingKeyNotice : String := "Error: OpenAI API key is missing! Enter it in settings."

def missingKeySentinel : String := "Error: API key not found."

/-- Models `AIPoweredSecondBrain.callOpenAI` (src/main.ts lines 597-617).  The first component
collects the user-visible `Notice` messages shown during the call; the second is the
returned completion text (or the thrown exception).  With a missing key the function
shows a notice and returns the sentinel string as a NORMAL result — it does not throw.
`transport` models the fetch + response parsing of lines 604-616 applied to
`(inputText, prompt)`. -/
def callOpenAI (apiKey : String)
    (transport : String → String → Except AIError String) (inputText prompt : String) :
    List String × Except AIError String :=
  if apiKey == "" then ([missingKeyNotice], .ok missingKeySentinel)
  else ([], transport inputText prompt)

/-- A note file as the indexer sees it: its stable path and modification time.  The
file content only matters through the embedding oracle. -/
structure NoteFile where
  path : String
  mtime : Int
  deriving DecidableEq, Repr

/-- Models `AIPoweredSecondBrain.updateNoteEmbedding` (src/main.ts lines 720-742) as a state
transformer on the embedding cache.  `embedResult` is the outcome of
`getEmbedding(content)`; when it throws, the exception propagates before the cache
mutation lines run, so the cache is returned unchanged. -/
def updateNoteEmbedding {R : Type} (cache : List (NoteEmbedding R)) (p : String)
    (mtime : Int) (embedResult : Except AIError (List R)) : List (NoteEmbedding R) :=
  match embedResult with
  | .error _ => cache
  | .ok v => upsert cache p v mtime

/-- Models `AIPoweredSecondBrain.updateAllEmbeddings` (src/main.ts lines 751-774): iterate over
all files; each file is processed inside its own try/catch, so a per-file failure is
logged and skipped and the loop continues with the next file. -/
def updateAllEmbeddings {R : Type} (files : List NoteFile)
    (embed : NoteFile → Except AIError (List R)) (cache : List (NoteEmbedding R)) :
    List (NoteEmbedding R) :=
  files.foldl (fun c f => updateNoteEmbedding c f.path f.mtime (embed f)) cache

/-- Cache states reachable by the operations the plugin performs on
`settings.embeddingCache.embeddings`: the initial empty cache (DEFAULT_SETTINGS,
src/main.ts line 34), an upsert by `updateNoteEmbedding`, the clear performed by the
Rebuild button of the settings tab (line 111), and a full rebuild (clear then
`updateAllEmbeddings`, lines 111-113). -/
inductive ReachableCache {R : Type} : List (NoteEmbedding R) → Prop where
  | init : ReachableCache []
  | upsert (c : List (NoteEmbedding R)) (p : String) (v : List R) (t : Int) :
      ReachableCache c → ReachableCache (upsert c p v t)
  | clear (c : List (NoteEmbedding R)) : ReachableCache c → ReachableCache []
  | rebuild (files : List NoteFile) (embed : NoteFile → Except AIError (List R))
      (c : List (NoteEmbedding R)) : ReachableCache c →
      ReachableCache (updateAllEmbeddings files embed [])

/-! Concrete inputs used by witness and counterexample theorems (vector coordinates
instantiated at ℤ, where every computation is kernel-decidable). -/

def pathQ : String := "q"

def pathZ : String := "z"

def pathA : String := "a"

def pathN : String := "n"

/-- A cache holding the active note `q`, two notes `z`, `a` tied at similarity 1 to the
query vector [1] (stored in this order, with `z` before `a` although `a` < `z`
alphabetically), and a note `n` with similarity -1. -/
def demoCache : List (NoteEmbedding ℤ) :=
  [⟨pathQ, [1], 0⟩, ⟨pathZ, [1], 0⟩, ⟨pathA, [1], 0⟩, ⟨pathN, [-1], 0⟩]

/-- A cache whose only non-active entry is the zero vector. -/
def zeroVecCache : List (NoteEmbedding ℤ) :=
  [⟨pathQ, [1], 0⟩, ⟨pathZ, [0], 0⟩]

def userGreeting : String := "hi"

def demoNoteContent : String := "X"

/-- A completion call that throws (e.g. the provider request rejects). -/
def failingAI : List ChatMessage → Except Unit String := fun _ => .error ()

/-- An embedding transport that accepts every input, including blank text. -/
def okEmbedOracle : String → Except AIError (List ℤ) := fun _ => .ok [1]

/-- An embedding transport that always fails. -/
def failEmbedOracle : String → Except AIError (List ℤ) := fun _ => .error .providerFailure

def blankText : String := ""

def failTransport : String → String → Except AIError String :=
  fun _ _ => .error .providerFailure

def emptyKey : String := ""

def demoInput : String := "text"

def demoPrompt : String := "prompt"

/-- A note whose embedding call will fail in `demoEmbed`. -/
def fileFail : NoteFile := ⟨pathA, 1⟩

/-- A note whose embedding call succeeds in `demoEmbed`. -/
def fileOk : NoteFile := ⟨pathZ, 2⟩

/-- Embedding oracle failing exactly on `fileFail`. -/
def demoEmbed : NoteFile → Except AIError (List ℤ) :=
  fun f => if f.path == pathA then .error .providerFailure else .ok [1]


theorem upsert_eq_rec {R : Type} (cache : List (NoteEmbedding R)) (p : String)
    (v : List R) (t : Int) : upsert cache p v t = upsertRec p v t cache := by
  induction cache with
  | nil => rfl
  | cons x xs ih =>
    by_cases hx : x.path == p
    · simp [upsert, upsertRec, List.findIdx_cons, hx]
    · simp only [upsert, upsertRec, List.findIdx_cons, hx, cond_false, if_neg,
        Bool.false_eq_true, not_false_eq_true, List.length_cons, Nat.add_lt_add_iff_right,
        List.set_cons_succ, List.cons_append]
      by_cases hlt : xs.findIdx (fun e => e.path == p) < xs.length
      · simp only [hlt, if_pos]
        rw [← ih]
        simp [upsert, hlt]
      · simp only [hlt, if_neg, not_false_eq_true]
        rw [← ih]
        simp [upsert, hlt]

theorem lookupNote_upsertRec_self {R : Type} (cache : List (NoteEmbedding R)) (p : String)
    (v : List R) (t : Int) :
    lookupNote (upsertRec p v t cache) p = some ⟨p, v, t⟩ := by
  induction cache with
  | nil => simp [lookupNote, upsertRec, List.find?_cons]
  | cons x xs ih =>
    by_cases hx : x.path == p
    · simp [lookupNote, upsertRec, hx, List.find?_cons]
    · simpa [lookupNote, upsertRec, hx, List.find?_cons] using ih

theorem lookupNote_upsertRec_ne {R : Type} (cache : List (NoteEmbedding R)) (p q : String)
    (v : List R) (t : Int) (hne : q ≠ p) :
    lookupNote (upsertRec q v t cache) p = lookupNote cache p := by
  induction cache with
  | nil => simp [lookupNote, upsertRec, List.find?_cons, hne]
  | cons x xs ih =>
    by_cases hx : x.path == q
    · have hxq : x.path = q := by simpa using hx
      simp [lookupNote, upsertRec, hx, List.find?_cons, hne, hxq]
    · by_cases hxp : x.path == p
      · simp [lookupNote, upsertRec, hx, List.find?_cons, hxp]
      · simpa [lookupNote, upsertRec, hx, List.find?_cons, hxp] using ih

theorem upsertRec_last_writer_wins {R : Type} (cache : List (NoteEmbedding R)) (p : String)
    (v v₂ : List R) (t t₂ : Int) :
    upsertRec p v₂ t₂ (upsertRec p v t cache) = upsertRec p v₂ t₂ cache := by
  induction cache with
  | nil => simp [upsertRec]
  | cons x xs ih =>
    by_cases hx : x.path == p
    · simp [upsertRec, hx]
    · simp [upsertRec, hx, ih]

theorem filter_upsertRec_ne {R : Type} (cache : List (NoteEmbedding R)) (p : String)
    (v : List R) (t : Int) :
    (upsertRec p v t cache).filter (fun e => e.path != p)
      = cache.filter (fun e => e.path != p) := by
  induction cache with
  | nil => simp [upsertRec, List.filter_cons]
  | cons x xs ih =>
    by_cases hx : x.path == p
    · have hxq : x.path = p := by simpa using hx
      simp [upsertRec, hx, hxq, List.filter_cons]
    · simp [upsertRec, hx, List.filter_cons, ih]

theorem mem_paths_upsertRec {R : Type} {cache : List (NoteEmbedding R)} {p q : String}
    {v : List R} {t : Int} (h : q ∈ (upsertRec p v t cache).map NoteEmbedding.path) :
    q = p ∨ q ∈ cache.map NoteEmbedding.path := by
  induction cache with
  | nil => simpa [upsertRec] using h
  | cons x xs ih =>
    by_cases hx : x.path == p
    · have hxq : x.path = p := by simpa using hx
      simp only [upsertRec, hx, if_pos, List.map_cons, List.mem_cons] at h
      rcases h with h | h
      · exact Or.inl h
      · exact Or.inr (by simp [h])
    · simp only [upsertRec, hx, if_neg, Bool.false_eq_true, not_false_eq_true,
        List.map_cons, List.mem_cons] at h
      rcases h with h | h
      · exact Or.inr (by simp [h])
      · rcases ih h with h | h
        · exact Or.inl h
        · exact Or.inr (by simp [h])

theorem nodup_paths_upsertRec {R : Type} (cache : List (NoteEmbedding R)) (p : String)
    (v : List R) (t : Int) (h : (cache.map NoteEmbedding.path).Nodup) :
    ((upsertRec p v t cache).map NoteEmbedding.path).Nodup := by
  induction cache with
  | nil => simp [upsertRec]
  | cons x xs ih =>
    simp only [List.map_cons, List.nodup_cons] at h
    by_cases hx : x.path == p
    · have hxq : x.path = p := by simpa using hx
      simp only [upsertRec, hx, if_pos, List.map_cons, List.nodup_cons]
      exact ⟨by rw [← hxq]; exact h.1, h.2⟩
    · have hxq : x.path ≠ p := by simpa using hx
      simp only [upsertRec, hx, if_neg, Bool.false_eq_true, not_false_eq_true,
        List.map_cons, List.nodup_cons]
      refine ⟨fun hmem => ?_, ih h.2⟩
      rcases mem_paths_upsertRec hmem with hh | hh
      · exact hxq hh
      · exact h.1 hh

theorem insertBySim_perm {R : Type} [LinearOrderedCommRing R] (e : SimilarityEntry R)
    (l : List (SimilarityEntry R)) : (insertBySim e l).Perm (e :: l) := by
  induction l with
  | nil => exact List.Perm.refl _
  | cons y ys ih =>
    by_cases hc : simLe y.similarity e.similarity
    · simp [insertBySim, hc]
    · simp only [insertBySim, hc, Bool.false_eq_true, if_neg, not_false_eq_true]
      exact (List.Perm.cons y ih).trans (List.Perm.swap e y ys)

theorem sortBySimilarityDesc_perm {R : Type} [LinearOrderedCommRing R]
    (l : List (SimilarityEntry R)) : (sortBySimilarityDesc l).Perm l := by
  induction l with
  | nil => exact List.Perm.refl _
  | cons x xs ih =>
    exact (insertBySim_perm x (sortBySimilarityDesc xs)).trans (List.Perm.cons x ih)

theorem simLe_total {R : Type} [LinearOrderedCommRing R] (x y : Sim R) :
    simLe x y = true ∨ simLe y x = true := by
  cases x with
  | nan => simp [simLe]
  | val d1 p1 =>
    cases y with
    | nan => simp [simLe]
    | val d2 p2 =>
      by_cases h1 : d1 < 0 <;> by_cases h2 : d2 < 0 <;>
        simp [simLe, h1, h2, decide_eq_true_eq]
      · exact le_total _ _
      · exact le_total _ _

theorem simLe_trans {R : Type} [LinearOrderedCommRing R] {x y z : Sim R}
    (hx : x.Wf) (hy : y.Wf) (hz : z.Wf)
    (hxy : simLe x y = true) (hyz : simLe y z = true) : simLe x z = true := by
  cases x with
  | nan => exact absurd hx (fun h => h)
  | val d1 p1 =>
  cases y with
  | nan => exact absurd hy (fun h => h)
  | val d2 p2 =>
  cases z with
  | nan => exact absurd hz (fun h => h)
  | val d3 p3 =>
  have hp1 : 0 < p1 := hx
  have hp2 : 0 < p2 := hy
  have hp3 : 0 < p3 := hz
  by_cases h1 : d1 < 0 <;> by_cases h2 : d2 < 0 <;> by_cases h3 : d3 < 0 <;>
    simp [simLe, h1, h2, h3, decide_eq_true_eq] at hxy hyz ⊢
  · nlinarith [mul_le_mul_of_nonneg_right hxy hp3.le,
      mul_le_mul_of_nonneg_right hyz hp1.le]
  · nlinarith [mul_le_mul_of_nonneg_right hxy hp3.le,
      mul_le_mul_of_nonneg_right hyz hp1.le]

theorem pairwise_insertBySim {R : Type} [LinearOrderedCommRing R]
    {e : SimilarityEntry R} {l : List (SimilarityEntry R)}
    (hw : ∀ x ∈ e :: l, x.similarity.Wf)
    (hs : l.Pairwise (fun a b => simLe b.similarity a.similarity = true)) :
    (insertBySim e l).Pairwise (fun a b => simLe b.similarity a.similarity = true) := by
  induction l with
  | nil => simp [insertBySim]
  | cons y ys ih =>
    have hwe : e.similarity.Wf := hw e (by simp)
    have hwy : y.similarity.Wf := hw y (by simp)
    rw [List.pairwise_cons] at hs
    by_cases hc : simLe y.similarity e.similarity
    · simp only [insertBySim, hc, if_pos]
      rw [List.pairwise_cons]
      refine ⟨fun z hz => ?_, List.pairwise_cons.mpr hs⟩
      rcases List.mem_cons.mp hz with hz | hz
      · subst hz; exact hc
      · exact simLe_trans (hw z (List.mem_cons_of_mem e (List.mem_cons_of_mem y hz)))
          hwy hwe (hs.1 z hz) hc
    · have hce : simLe e.similarity y.similarity = true := by
        rcases simLe_total y.similarity e.similarity with h | h
        · exact absurd h hc
        · exact h
      simp only [insertBySim, hc, Bool.false_eq_true, if_neg, not_false_eq_true]
      rw [List.pairwise_cons]
      refine ⟨fun z hz => ?_, ?_⟩
      · rcases List.mem_cons.mp ((insertBySim_perm e ys).mem_iff.mp hz) with hz | hz
        · subst hz; exact hce
        · exact hs.1 z hz
      · refine ih (fun w hwm => ?_) hs.2
        rcases List.mem_cons.mp hwm with h | h
        · subst h; exact hwe
        · exact hw w (List.mem_cons_of_mem e (List.mem_cons_of_mem y h))

theorem pairwise_sortBySimilarityDesc {R : Type} [LinearOrderedCommRing R]
    {l : List (SimilarityEntry R)} (hw : ∀ x ∈ l, x.similarity.Wf) :
    (sortBySimilarityDesc l).Pairwise
      (fun a b => simLe b.similarity a.similarity = true) := by
  induction l with
  | nil => simp [sortBySimilarityDesc]
  | cons x xs ih =>
    have hsorted := ih (fun z hz => hw z (List.mem_cons_of_mem x hz))
    show (insertBySim x (sortBySimilarityDesc xs)).Pairwise _
    apply pairwise_insertBySim _ hsorted
    intro z hz
    rcases List.mem_cons.mp hz with hz | hz
    · subst hz; exact hw z (List.mem_cons_self z xs)
    · exact hw z
        (List.mem_cons_of_mem x ((sortBySimilarityDesc_perm xs).mem_iff.mp hz))

/-- Soundness of the exact similarity comparison: on well-formed values `simLe` is
precisely the real-number order on `num / sqrt(denSq)`, i.e. on the values JS computes
as `dot / (magnitudeA * magnitudeB)`. -/
theorem simLe_val_iff (d1 p1 d2 p2 : ℝ) (h1 : 0 < p1) (h2 : 0 < p2) :
    simLe (Sim.val d1 p1) (Sim.val d2 p2) = true
      ↔ d1 / Real.sqrt p1 ≤ d2 / Real.sqrt p2 := by
  have s1 : 0 < Real.sqrt p1 := Real.sqrt_pos.mpr h1
  have s2 : 0 < Real.sqrt p2 := Real.sqrt_pos.mpr h2
  have e1 : d1 * Real.sqrt p2 * (d1 * Real.sqrt p2) = d1 * d1 * p2 := by
    rw [mul_mul_mul_comm, Real.mul_self_sqrt h2.le]
  have e2 : d2 * Real.sqrt p1 * (d2 * Real.sqrt p1) = d2 * d2 * p1 := by
    rw [mul_mul_mul_comm, Real.mul_self_sqrt h1.le]
  rw [div_le_div_iff₀ s1 s2]
  by_cases hd1 : d1 < 0 <;> by_cases hd2 : d2 < 0
  · have hs : simLe (Sim.val d1 p1) (Sim.val d2 p2)
        = decide (d2 * d2 * p1 ≤ d1 * d1 * p2) := by
      simp [simLe, hd1, hd2]
    rw [hs, decide_eq_true_eq]
    have ha : 0 ≤ -(d2 * Real.sqrt p1) := by nlinarith
    have hb : 0 ≤ -(d1 * Real.sqrt p2) := by nlinarith
    nth_rewrite 2 [← neg_le_neg_iff]
    rw [mul_self_le_mul_self_iff ha hb, neg_mul_neg, neg_mul_neg, e1, e2]
  · have hs : simLe (Sim.val d1 p1) (Sim.val d2 p2) = true := by
      simp [simLe, hd1, hd2]
    rw [hs]
    simp only [true_iff]
    nlinarith [mul_pos (show (0:ℝ) < -d1 by linarith) s2,
      mul_nonneg (not_lt.mp hd2) s1.le]
  · have hs : simLe (Sim.val d1 p1) (Sim.val d2 p2) = false := by
      simp [simLe, hd1, hd2]
    rw [hs]
    simp only [Bool.false_eq_true, false_iff, not_le]
    nlinarith [mul_nonneg (not_lt.mp hd1) s2.le,
      mul_pos (show (0:ℝ) < -d2 by linarith) s1]
  · have hs : simLe (Sim.val d1 p1) (Sim.val d2 p2)
        = decide (d1 * d1 * p2 ≤ d2 * d2 * p1) := by
      simp [simLe, hd1, hd2]
    rw [hs, decide_eq_true_eq]
    have ha : 0 ≤ d1 * Real.sqrt p2 := mul_nonneg (not_lt.mp hd1) s2.le
    have hb : 0 ≤ d2 * Real.sqrt p1 := mul_nonneg (not_lt.mp hd2) s1.le
    rw [mul_self_le_mul_self_iff ha hb, e1, e2]

theorem updateAllEmbeddings_cons {R : Type} (f : NoteFile) (fs : List NoteFile)
    (embed : NoteFile → Except AIError (List R)) (cache : List (NoteEmbedding R)) :
    updateAllEmbeddings (f :: fs) embed cache
      = updateAllEmbeddings fs embed
          (updateNoteEmbedding cache f.path f.mtime (embed f)) := rfl

theorem nodup_paths_updateNoteEmbedding {R : Type} (cache : List (NoteEmbedding R))
    (p : String) (m : Int) (res : Except AIError (List R))
    (h : (cache.map NoteEmbedding.path).Nodup) :
    ((updateNoteEmbedding cache p m res).map NoteEmbedding.path).Nodup := by
  cases res with
  | error e => simpa [updateNoteEmbedding] using h
  | ok v =>
    simp only [updateNoteEmbedding]
    rw [upsert_eq_rec]
    exact nodup_paths_upsertRec cache p v m h

theorem nodup_paths_updateAllEmbeddings {R : Type} (files : List NoteFile)
    (embed : NoteFile → Except AIError (List R)) :
    ∀ cache : List (NoteEmbedding R), (cache.map NoteEmbedding.path).Nodup →
    ((updateAllEmbeddings files embed cache).map NoteEmbedding.path).Nodup := by
  induction files with
  | nil => intro cache h; simpa [updateAllEmbeddings] using h
  | cons f fs ih =>
    intro cache h
    rw [updateAllEmbeddings_cons]
    exact ih _ (nodup_paths_updateNoteEmbedding cache f.path f.mtime (embed f) h)

theorem lookupNote_updateAllEmbeddings_of_not_mem {R : Type} (files : List NoteFile)
    (embed : NoteFile → Except AIError (List R)) (p : String) :
    ∀ cache : List (NoteEmbedding R), (∀ g ∈ files, g.path ≠ p) →
    lookupNote (updateAllEmbeddings files embed cache) p = lookupNote cache p := by
  induction files with
  | nil => intro cache _; rfl
  | cons f fs ih =>
    intro cache h
    rw [updateAllEmbeddings_cons, ih _ (fun g hg => h g (List.mem_cons_of_mem f hg))]
    cases hembed : embed f with
    | error e => simp [updateNoteEmbedding]
    | ok v =>
      simp only [updateNoteEmbedding]
      rw [upsert_eq_rec]
      exact lookupNote_upsertRec_ne cache p f.path v f.mtime (h f (List.mem_cons_self f fs))

/-- C1 counterexample.  With the active note `q` (vector [1]) and cache `demoCache`,
the code returns `[z (sim 1), a (sim 1), n (sim -1)]`: the entry `n` has similarity
-1 ≤ minSimilarity (for the default 0 as well as for the 0.5 the spec attributes to the
related-notes flow) yet appears in the results — the source applies no similarity
threshold at all — and the tie between `z` and `a` is returned in cache order `z, a`
although noteId-ascending order would be `a, z`.  The third conjunct certifies that the
included similarity value -1 (= Sim.val (-1) 1) is ≤ 0 (= Sim.val 0 1). -/
theorem C1_counterexample :
    findRelatedNotes demoCache pathQ [1]
      = [⟨pathZ, Sim.val 1 1⟩, ⟨pathA, Sim.val 1 1⟩, ⟨pathN, Sim.val (-1) 1⟩]
    ∧ (⟨pathN, Sim.val (-1) 1⟩ : SimilarityEntry ℤ) ∈ findRelatedNotes demoCache pathQ [1]
    ∧ simLe (Sim.val ((-1 : ℤ)) 1) (Sim.val 0 1) = true :=
  ⟨by decide, by decide, by decide⟩

/-- C1 (amended): when every candidate similarity is an actual number (no NaN), the
related-notes result is sorted non-strictly descending by similarity, has length at
most 5, and every entry is one of the computed candidates (a cached note other than the
active one, with its cosine similarity); no minSimilarity filtering is applied and ties
keep cache order. -/
theorem C1_relatedNotes_sorted_bounded {R : Type} [LinearOrderedCommRing R]
    (cache : List (NoteEmbedding R)) (activePath : String) (emb : List R)
    (hwf : ∀ x ∈ relatedCandidates cache activePath emb, x.similarity.Wf) :
    (findRelatedNotes cache activePath emb).length ≤ 5
    ∧ (findRelatedNotes cache activePath emb).Pairwise
        (fun a b => simLe b.similarity a.similarity = true)
    ∧ ∀ x ∈ findRelatedNotes cache activePath emb,
        x ∈ relatedCandidates cache activePath emb := by
  refine ⟨List.length_take_le _ _, ?_, ?_⟩
  · exact List.Pairwise.sublist (List.take_sublist _ _) (pairwise_sortBySimilarityDesc hwf)
  · intro x hx
    exact (sortBySimilarityDesc_perm _).mem_iff.mp ((List.take_sublist _ _).subset hx)

/-- C1 witness: the amended theorem applied to the concrete cache `demoCache`. -/
theorem C1_witness :
    (∀ x ∈ relatedCandidates demoCache pathQ ([1] : List ℤ), x.similarity.Wf)
    ∧ ((findRelatedNotes demoCache pathQ ([1] : List ℤ)).length ≤ 5
      ∧ (findRelatedNotes demoCache pathQ ([1] : List ℤ)).Pairwise
          (fun a b => simLe b.similarity a.similarity = true)
      ∧ ∀ x ∈ findRelatedNotes demoCache pathQ ([1] : List ℤ),
          x ∈ relatedCandidates demoCache pathQ ([1] : List ℤ)) :=
  ⟨by decide, C1_relatedNotes_sorted_bounded demoCache pathQ [1] (by decide)⟩

/-- C2: for every cache state, active path and query embedding, the related-notes
search result never contains the identifier of the active note itself (the
`.filter(e => e.path !== activeFile.path)` stage removes it). -/
theorem C2_relatedNotes_excludes_self {R : Type} [LinearOrderedCommRing R]
    (cache : List (NoteEmbedding R)) (activePath : String) (emb : List R) :
    ∀ x ∈ findRelatedNotes cache activePath emb, x.path ≠ activePath := by
  intro x hx
  have hx2 : x ∈ relatedCandidates cache activePath emb :=
    (sortBySimilarityDesc_perm _).mem_iff.mp ((List.take_sublist _ _).subset hx)
  rcases List.mem_map.mp hx2 with ⟨e, he, rfl⟩
  have hb := (List.mem_filter.mp he).2
  simpa using hb

/-- C2 witness: applied at a concrete result entry of `demoCache`. -/
theorem C2_witness :
    (⟨pathZ, Sim.val 1 1⟩ : SimilarityEntry ℤ) ∈ findRelatedNotes demoCache pathQ [1]
    ∧ (⟨pathZ, Sim.val 1 1⟩ : SimilarityEntry ℤ).path ≠ pathQ :=
  ⟨by decide, C2_relatedNotes_excludes_self demoCache pathQ [1] _ (by decide)⟩

/-- C3 counterexample: with the active note `q` (vector [1]) and the cache whose only
other entry `z` holds the zero vector, the search returns `[⟨z, NaN⟩]`: the zero-vector
entry is NOT excluded — it appears in the results carrying the NaN similarity produced
by the 0/0 division in `cosineSimilarity`. -/
theorem C3_counterexample :
    findRelatedNotes zeroVecCache pathQ [1] = [⟨pathZ, Sim.nan⟩] := by decide

/-- C3 (amended): a candidate whose vector (or whose query) has zero norm is not
excluded: it stays in the candidate list of the search, carrying similarity NaN from
the zero-denominator cosine division. -/
theorem C3_zero_vector_included_as_nan {R : Type} [LinearOrderedCommRing R]
    (cache : List (NoteEmbedding R)) (activePath : String) (emb : List R)
    (e : NoteEmbedding R) (hmem : e ∈ cache) (hne : e.path ≠ activePath)
    (hlen : emb.length ≤ e.embedding.length)
    (hzero : sumSq emb * sumSq e.embedding = 0) :
    (⟨e.path, Sim.nan⟩ : SimilarityEntry R) ∈ relatedCandidates cache activePath emb := by
  have hcos : cosineSimilarity emb e.embedding = Sim.nan := by
    simp [cosineSimilarity, dotProduct, hlen, hzero]
  exact List.mem_map.mpr ⟨e, List.mem_filter.mpr ⟨hmem, by simpa using hne⟩, by simp [hcos]⟩

/-- C3 witness: the amended theorem applied to the concrete zero-vector cache. -/
theorem C3_witness :
    ((⟨pathZ, [0], 0⟩ : NoteEmbedding ℤ) ∈ zeroVecCache
      ∧ (⟨pathZ, ([0] : List ℤ), 0⟩ : NoteEmbedding ℤ).path ≠ pathQ
      ∧ sumSq ([1] : List ℤ) * sumSq [(0 : ℤ)] = 0)
    ∧ (⟨pathZ, Sim.nan⟩ : SimilarityEntry ℤ) ∈ relatedCandidates zeroVecCache pathQ [1] :=
  ⟨⟨by decide, by decide, by decide⟩,
    C3_zero_vector_included_as_nan zeroVecCache pathQ [1] ⟨pathZ, [0], 0⟩
      (by decide) (by decide) (by decide) (by decide)⟩

/-- C4: every cache state reachable from the initial empty cache by upserts, clears and
rebuilds has pairwise-distinct note paths — at most one NoteEmbedding per noteId. -/
theorem C4_cache_unique_paths {R : Type} (c : List (NoteEmbedding R))
    (h : ReachableCache c) : (c.map NoteEmbedding.path).Nodup := by
  induction h with
  | init => simp
  | upsert c p v t hr ih =>
    rw [upsert_eq_rec]
    exact nodup_paths_upsertRec c p v t ih
  | clear c hr ih => simp
  | rebuild files embed c hr ih =>
    exact nodup_paths_updateAllEmbeddings files embed [] (by simp)

/-- C4 witness: the invariant evaluated at the reachable one-entry cache. -/
theorem C4_witness :
    ReachableCache (upsert ([] : List (NoteEmbedding ℤ)) pathQ [1] 0)
    ∧ ((upsert ([] : List (NoteEmbedding ℤ)) pathQ [1] 0).map NoteEmbedding.path).Nodup :=
  ⟨ReachableCache.upsert [] pathQ [1] 0 ReachableCache.init,
    C4_cache_unique_paths _ (ReachableCache.upsert [] pathQ [1] 0 ReachableCache.init)⟩

/-- C5: for every cache state, upsert followed by get on the same noteId returns
exactly the just-written vector and timestamp, and a second upsert for the same noteId
fully replaces the first (the two-step state equals the state after the second upsert
alone — last writer wins, no merge). -/
theorem C5_upsert_roundtrip_and_replace {R : Type} (cache : List (NoteEmbedding R))
    (p : String) (v v₂ : List R) (t t₂ : Int) :
    lookupNote (upsert cache p v t) p = some ⟨p, v, t⟩
    ∧ upsert (upsert cache p v t) p v₂ t₂ = upsert cache p v₂ t₂ := by
  constructor
  · rw [upsert_eq_rec]
    exact lookupNote_upsertRec_self cache p v t
  · rw [upsert_eq_rec cache p v t, upsert_eq_rec, upsert_eq_rec cache p v₂ t₂]
    exact upsertRec_last_writer_wins cache p v v₂ t t₂

/-- C6 counterexample: `getEmbedding` applied to blank text with a provider transport
that accepts every input returns a successful embedding — the code performs no
blank-input validation and defines no EmptyInputError (the `AIError` type enumerates
every error the gateway can raise). -/
theorem C6_counterexample :
    getEmbedding providerOpenai failEmbedOracle okEmbedOracle blankText
      = Except.ok [1] := rfl

/-- C6 (amended): `getEmbedding` forwards its text argument (blank or not) to the
selected provider unvalidated, and a failed embedding call leaves the cache unchanged
(`updateNoteEmbedding` performs no cache write when the embedding result is an
exception). -/
theorem C6_embed_unvalidated_and_cache_unchanged {R : Type}
    (ollamaEmbed openaiEmbed : String → Except AIError (List R)) (text : String)
    (cache : List (NoteEmbedding R)) (p : String) (m : Int) (err : AIError) :
    getEmbedding providerOllama ollamaEmbed openaiEmbed text = ollamaEmbed text
    ∧ getEmbedding providerOpenai ollamaEmbed openaiEmbed text = openaiEmbed text
    ∧ updateNoteEmbedding cache p m (Except.error err) = cache :=
  ⟨rfl, rfl, rfl⟩

/-- C7: evaluation at the failing input.  When the completion call throws, the
`catch` block of `handleUserInput` does not strip the transient note-content system
message: the permanent history returned still contains the system message whose content
is `noteContentMarker ++ "\n" ++ note`, and that content does start with the marker
(second conjunct, stated as a character-list prefix). -/
theorem C7_failed_turn_keeps_note_context :
    handleUserInput [] userGreeting (some demoNoteContent) failingAI
      = [⟨Role.user, userGreeting⟩,
         ⟨Role.system, noteContentMarker ++ lineFeed ++ demoNoteContent⟩]
    ∧ List.IsPrefix noteContentMarker.data
        (noteContentMarker ++ lineFeed ++ demoNoteContent).data :=
  ⟨by decide, ⟨(lineFeed ++ demoNoteContent).data, by decide⟩⟩

/-- C8 counterexample: with a missing (empty) API key, `callOpenAI` shows the
user-visible notice but returns the sentinel text as a NORMAL successful result — even
though the transport would fail, no request is made and nothing is thrown; the caller
receives `Except.ok` rather than an aborted operation. -/
theorem C8_counterexample :
    callOpenAI emptyKey failTransport demoInput demoPrompt
      = ([missingKeyNotice], Except.ok missingKeySentinel) := rfl

/-- C8 (amended): for every transport and input, a completion with the missing
credential shows the user-visible missing-key notice, contacts no provider, and
returns normally with the sentinel string — it does not throw, and the source defines
no ConfigurationError. -/
theorem C8_missing_key_returns_sentinel
    (transport : String → String → Except AIError String) (inputText prompt : String) :
    callOpenAI emptyKey transport inputText prompt
      = ([missingKeyNotice], Except.ok missingKeySentinel) := rfl

/-- C9: during a rebuild over files with distinct paths, a note whose embedding call
succeeds is indexed with its embedding and modification time, regardless of failures of
any other notes — the per-file try/catch logs and skips a failure without aborting the
iteration. -/
theorem C9_rebuild_skips_failures {R : Type} (files : List NoteFile)
    (embed : NoteFile → Except AIError (List R)) :
    ∀ (cache : List (NoteEmbedding R)) (f : NoteFile) (v : List R),
    (files.map NoteFile.path).Nodup → f ∈ files → embed f = Except.ok v →
    lookupNote (updateAllEmbeddings files embed cache) f.path
      = some ⟨f.path, v, f.mtime⟩ := by
  induction files with
  | nil =>
    intro cache f v _ hmem _
    exact absurd hmem (List.not_mem_nil f)
  | cons g gs ih =>
    intro cache f v hnd hmem hok
    rw [updateAllEmbeddings_cons]
    rcases List.mem_cons.mp hmem with heq | hmem2
    · rw [heq] at hok ⊢
      simp only [List.map_cons, List.nodup_cons] at hnd
      have hrest : ∀ g2 ∈ gs, g2.path ≠ g.path := by
        intro g2 hg2 heq2
        exact hnd.1 (heq2 ▸ List.mem_map_of_mem NoteFile.path hg2)
      rw [lookupNote_updateAllEmbeddings_of_not_mem gs embed g.path _ hrest, hok]
      simp only [updateNoteEmbedding]
      rw [upsert_eq_rec]
      exact lookupNote_upsertRec_self cache g.path v g.mtime
    · simp only [List.map_cons, List.nodup_cons] at hnd
      exact ih _ f v hnd.2 hmem2 hok

/-- C9 witness: a two-file rebuild in which the first file fails to embed; the second
file is still indexed. -/
theorem C9_witness :
    (([fileFail, fileOk].map NoteFile.path).Nodup
      ∧ fileOk ∈ [fileFail, fileOk]
      ∧ demoEmbed fileOk = Except.ok [1])
    ∧ lookupNote (updateAllEmbeddings [fileFail, fileOk] demoEmbed []) fileOk.path
        = some ⟨fileOk.path, [1], fileOk.mtime⟩ :=
  ⟨⟨by decide, by decide, rfl⟩,
    C9_rebuild_skips_failures [fileFail, fileOk] demoEmbed []
      fileOk [1] (by decide) (by decide) rfl⟩

/-- C10: an upsert for path p leaves every cache entry with a different path unchanged
and preserves their relative order: the sublist of entries with path ≠ p is identical
before and after. -/
theorem C10_upsert_frame {R : Type} (cache : List (NoteEmbedding R)) (p : String)
    (v : List R) (t : Int) :
    (upsert cache p v t).filter (fun e => e.path != p)
      = cache.filter (fun e => e.path != p) := by
  rw [upsert_eq_rec]
  exact filter_upsertRec_ne cache p v t
